import Mathlib

/-!
Verification development for the procurement-portal scraper.

The repository drives a rendered document interface (Playwright) and turns
transient DOM state into structured data.  The pure computational content of
each operation is embedded below:

* field normalisation (`parseAmount`, `parseDate`, `parseLabel`);
* per-row record extraction (`extractRowData`) over an explicit model of the
  DOM cells a row exposes;
* the pagination loop of `scrape` over an explicit sequence of page models;
* the retry executor `retryOperation`, with the attempt indices and back-off
  delays it performs recorded in a trace;
* the expansion driver `expandAllNodes` over an abstract widget;
* the two flat-to-tree reconstruction variants of `scrapeCPVTree`
  (depth-stack and positional-path).

JavaScript `undefined`/`null` is modelled with `Option`, thrown exceptions
with `Except`, and the IEEE `NaN` produced by `parseFloat` with `none` in an
`Option ℚ` (every non-NaN value reachable here is an exact decimal, so `ℚ`
is a faithful carrier).
-/

/-! ## Character-level helpers (JS string primitives) -/

/-- The characters stripped by JavaScript `String.prototype.trim`
(restricted to the code points that can occur in this development). -/
def isJsWhitespace (c : Char) : Bool :=
  c = ' ' || c = '\t' || c = '\n' || c = '\r' ||
  c.toNat = 0x0b || c.toNat = 0x0c || c.toNat = 0xa0 ||
  c.toNat = 0x2028 || c.toNat = 0x2029 || c.toNat = 0xfeff

/-- JavaScript `text.trim()` on an explicit character list. -/
def jsTrim (cs : List Char) : List Char :=
  ((cs.dropWhile isJsWhitespace).reverse.dropWhile isJsWhitespace).reverse

/-- JavaScript `text.trim()` on a `String`. -/
def jsTrimStr (s : String) : String :=
  String.mk (jsTrim s.data)

/-- Value of a decimal digit character. -/
def digitVal (c : Char) : Nat := c.toNat - 48

/-- The decimal digit character for `n % 10`. -/
def digitChar : Nat → Char
  | 0 => '0' | 1 => '1' | 2 => '2' | 3 => '3' | 4 => '4'
  | 5 => '5' | 6 => '6' | 7 => '7' | 8 => '8' | _ => '9'

/-- Numeric value of a digit string, most significant first
(the reading performed by `parseFloat` on the integer part). -/
def digitsToNat (ds : List Char) : Nat :=
  ds.foldl (fun acc c => 10 * acc + digitVal c) 0

/-! ## `parseAmount`: the numeric conversion inside `extractImporte`

Source (`src/utils.ts`):
```
const numericValue = importeText.replace(/[^\d,]/g, '').replace(',', '.');
return numericValue ? parseFloat(numericValue) : 0;
```
`replace(/[^\d,]/g,'')` deletes every character that is not a decimal digit
or a comma; `replace(',', '.')` rewrites only the first comma.  `parseFloat`
reads the longest prefix of the form `digits* ('.' digits*)?` and yields
`NaN` when that prefix contains no digit.  Only digits, `'.'` and `','` can
reach `parseFloat` here, so the prefix grammar below is exhaustive for the
reachable inputs.  `NaN` is modelled as `none`. -/

/-- `text.replace(/[^\d,]/g, '')`. -/
def stripNonDigitComma (cs : List Char) : List Char :=
  cs.filter (fun c => c.isDigit || c = ',')

/-- `s.replace(',', '.')` — JavaScript `replace` with a string pattern
rewrites only the first occurrence. -/
def replaceFirstComma : List Char → List Char
  | [] => []
  | c :: cs => if c = ',' then '.' :: cs else c :: replaceFirstComma cs

/-- JavaScript `parseFloat` restricted to strings of digits, `'.'` and `','`:
longest valid prefix `digits* ('.' digits*)?`, `none` (NaN) when the prefix
holds no digit. -/
def jsParseFloat (cs : List Char) : Option ℚ :=
  match cs.dropWhile Char.isDigit with
  | '.' :: rest2 =>
    if (cs.takeWhile Char.isDigit).isEmpty && (rest2.takeWhile Char.isDigit).isEmpty
    then none
    else some ((digitsToNat (cs.takeWhile Char.isDigit) : ℚ) +
      (digitsToNat (rest2.takeWhile Char.isDigit) : ℚ)
        / (10 : ℚ) ^ (rest2.takeWhile Char.isDigit).length)
  | _ =>
    if (cs.takeWhile Char.isDigit).isEmpty then none
    else some (digitsToNat (cs.takeWhile Char.isDigit) : ℚ)

/-- The numeric conversion of `extractImporte` (the spec's `parseAmount`),
applied to the already-extracted cell text. -/
def parseAmount (s : String) : Option ℚ :=
  if (replaceFirstComma (stripNonDigitComma s.data)).isEmpty then some 0
  else jsParseFloat (replaceFirstComma (stripNonDigitComma s.data))

example : parseAmount "1.234,56 EUR" = some (1234.56 : ℚ) := by
  rw [show parseAmount "1.234,56 EUR"
      = some (((1234 : ℕ) : ℚ) + ((56 : ℕ) : ℚ) / (10 : ℚ) ^ (2 : ℕ)) from rfl]
  norm_num

example : parseAmount "" = some 0 := by decide
example : parseAmount "," = none := by decide

example : parseAmount "12,50 EUR" = some (12.5 : ℚ) := by
  rw [show parseAmount "12,50 EUR"
      = some (((12 : ℕ) : ℚ) + ((50 : ℕ) : ℚ) / (10 : ℚ) ^ (2 : ℕ)) from rfl]
  norm_num

example : parseAmount "1,234,56" = some (1.234 : ℚ) := by
  rw [show parseAmount "1,234,56"
      = some (((1 : ℕ) : ℚ) + ((234 : ℕ) : ℚ) / (10 : ℚ) ^ (3 : ℕ)) from rfl]
  norm_num

/-! ## `parseLabel` (taxonomy label splitter, both `scrapeCPVTree` variants)

Source (`src/unnamed/part_000` and `src/selector.spec.ts`):
```
const match = text.match(/^(\d{8})?-?(.+)$/);
return { code: match?.[1] || '', description: match?.[2]?.trim() || text.trim() };
```
`regexLabelMatch` below reproduces the backtracking order of that regular
expression: the optional 8-digit group is preferred, then the optional
hyphen, and `(.+)$` succeeds exactly when the remainder is non-empty and
free of line terminators (`.` never matches a line terminator and `$`
without the `m` flag only matches at the end of the string). -/

/-- A JavaScript line terminator (never matched by `.`). -/
def isLineTerm (c : Char) : Bool :=
  c = '\n' || c = '\r' || c.toNat = 0x2028 || c.toNat = 0x2029

/-- Whether `(.+)$` accepts the whole remainder `cs`. -/
def dotPlusOk (cs : List Char) : Bool :=
  !cs.isEmpty && cs.all (fun c => !isLineTerm c)

/-- The leading `\d{8}` group: the first eight characters when they are all
digits, together with the remainder. -/
def first8Digits (cs : List Char) : Option (List Char × List Char) :=
  let pre := cs.take 8
  if pre.length = 8 && pre.all Char.isDigit then some (pre, cs.drop 8) else none

/-- `text.match(/^(\d{8})?-?(.+)$/)`: `none` when the regex does not match,
otherwise the captured groups `(group 1, group 2)`, following the engine's
backtracking preference order. -/
def regexLabelMatch (cs : List Char) : Option (Option (List Char) × List Char) :=
  match first8Digits cs with
  | some (d8, rest) =>
    match rest with
    | '-' :: r2 =>
      if dotPlusOk r2 then some (some d8, r2)
      else if dotPlusOk rest then some (some d8, rest)
      else if dotPlusOk cs then some (none, cs)
      else none
    | _ =>
      if dotPlusOk rest then some (some d8, rest)
      else if dotPlusOk cs then some (none, cs)
      else none
  | none =>
    match cs with
    | '-' :: r2 =>
      if dotPlusOk r2 then some (none, r2)
      else if dotPlusOk cs then some (none, cs)
      else none
    | _ => if dotPlusOk cs then some (none, cs) else none

/-- `parseLabel` from both tree-scraping variants: split a taxonomy label
into `(code, description)`. -/
def parseLabel (text : String) : String × String :=
  match regexLabelMatch text.data with
  | some (g1, g2) =>
    ((match g1 with | some d => String.mk d | none => ""),
     if (jsTrim g2).isEmpty then String.mk (jsTrim text.data)
     else String.mk (jsTrim g2))
  | none => ("", String.mk (jsTrim text.data))

example : parseLabel "12345678-Services" = ("12345678", "Services") := by decide
example : parseLabel "plain text" = ("", "plain text") := by decide
example : parseLabel "-abc" = ("", "abc") := by decide
example : parseLabel "12345678-" = ("12345678", "-") := by decide
example : parseLabel "12345678" = ("", "12345678") := by decide
example : parseLabel "" = ("", "") := by decide

/-! ## `parseDate` (the conversion in `extractFecha`)

Source (`src/utils.ts`):
```
try {
  const date = parse(fechaText, 'dd/MM/yyyy', new Date());
  return format(date, 'yyyy-MM-dd');
} catch { return fechaText; }
```
Modelled from the spec: `parse`/`format` come from the external `date-fns`
library, whose code is not part of the repository.  Per the spec, the source
pattern is day/month/year with 2-digit day and month and 4-digit year, the
parse validates the calendar date, and a failed parse makes the whole
conversion return the original text unchanged (in the source, `format`
throws on an invalid date and the `catch` returns `fechaText`). -/

/-- Gregorian leap-year test. -/
def isLeapYear (y : Nat) : Bool :=
  y % 4 = 0 && (y % 100 ≠ 0 || y % 400 = 0)

/-- Days in month `m` of year `y` (months are 1-based). -/
def daysInMonth (m y : Nat) : Nat :=
  if m = 2 then (if isLeapYear y then 29 else 28)
  else if m = 4 || m = 6 || m = 9 || m = 11 then 30
  else 31

/-- Value of a two-digit group (`dd`, `MM`). -/
def twoDigits (a b : Char) : Nat := 10 * digitVal a + digitVal b

/-- Value of a four-digit group (`yyyy`). -/
def fourDigits (a b c d : Char) : Nat :=
  1000 * digitVal a + 100 * digitVal b + 10 * digitVal c + digitVal d

/-- `parse(text, 'dd/MM/yyyy', ...)`: `some (day, month, year)` for a text
of shape `dd/MM/yyyy` denoting a valid calendar date, else `none`
(an invalid date). -/
def parseDDMMYYYY (cs : List Char) : Option (Nat × Nat × Nat) :=
  match cs with
  | [d1, d2, s1, m1, m2, s2, y1, y2, y3, y4] =>
    if s1 = '/' && s2 = '/' &&
       [d1, d2, m1, m2, y1, y2, y3, y4].all Char.isDigit then
      if 1 ≤ twoDigits m1 m2 && twoDigits m1 m2 ≤ 12 && 1 ≤ twoDigits d1 d2 &&
         twoDigits d1 d2 ≤ daysInMonth (twoDigits m1 m2) (fourDigits y1 y2 y3 y4)
      then some (twoDigits d1 d2, twoDigits m1 m2, fourDigits y1 y2 y3 y4)
      else none
    else none
  | _ => none

/-- Two-digit zero-padded rendering (`dd`, `MM`). -/
def pad2 (n : Nat) : List Char := [digitChar (n / 10 % 10), digitChar (n % 10)]

/-- Four-digit zero-padded rendering (`yyyy`). -/
def pad4 (n : Nat) : List Char :=
  [digitChar (n / 1000 % 10), digitChar (n / 100 % 10),
   digitChar (n / 10 % 10), digitChar (n % 10)]

/-- `format(date, 'yyyy-MM-dd')` for a valid date. -/
def formatYYYYMMDD (d m y : Nat) : List Char :=
  pad4 y ++ '-' :: pad2 m ++ '-' :: pad2 d

/-- The date conversion inside `extractFecha`: canonicalise a `dd/MM/yyyy`
text, return the input unchanged when parsing fails. -/
def parseDate (text : String) : String :=
  match parseDDMMYYYY text.data with
  | some (d, m, y) => String.mk (formatYYYYMMDD d m y)
  | none => text

/-- The `dd/MM/yyyy` rendering of a date, for stating round-trip results. -/
def mkDDMMYYYY (d m y : Nat) : String :=
  String.mk (pad2 d ++ '/' :: pad2 m ++ '/' :: pad4 y)

example : parseDate "31/12/2024" = "2024-12-31" := by decide
example : parseDate "not a date" = "not a date" := by decide
example : parseDate "31/04/2024" = "31/04/2024" := by decide
example : parseDate "29/02/2024" = "2024-02-29" := by decide
example : parseDate "29/02/2023" = "29/02/2023" := by decide
example : mkDDMMYYYY 31 12 2024 = "31/12/2024" := by decide

/-! ## `retryOperation` (Retry Executor)

Source (`src/utils.ts`):
```
async function retryOperation(operation, maxAttempts = 3) {
  let lastError;
  for (let attempt = 1; attempt <= maxAttempts; attempt++) {
    try { return await operation(); }
    catch (error) {
      lastError = error;
      if (attempt === maxAttempts) break;
      await new Promise(resolve => setTimeout(resolve, attempt * 1000));
    }
  }
  throw lastError;
}
```
The operation is modelled as a function from the (1-based) attempt index to
its outcome; the trace records which attempts were invoked and which delays
were awaited.  A thrown `lastError` that was never assigned (`maxAttempts`
below 1) is `Except.error none`. -/

/-- Observable outcome of one `retryOperation` run. -/
structure RetryTrace (E A : Type) where
  calls : List Nat
  delays : List Nat
  result : Except (Option E) A
  deriving Repr

/-- The `for` loop of `retryOperation`; `remaining = maxAttempts - attempt + 1`
counts the loop iterations still allowed. -/
def retryGo (op : Nat → Except E A) :
    Nat → Nat → Option E → List Nat → List Nat → RetryTrace E A
  | _, 0, last, callsRev, delaysRev =>
    ⟨callsRev.reverse, delaysRev.reverse, .error last⟩
  | attempt, r + 1, _, callsRev, delaysRev =>
    match op attempt with
    | .ok a => ⟨(attempt :: callsRev).reverse, delaysRev.reverse, .ok a⟩
    | .error e =>
      if r = 0 then ⟨(attempt :: callsRev).reverse, delaysRev.reverse, .error (some e)⟩
      else retryGo op (attempt + 1) r (some e)
        (attempt :: callsRev) (attempt * 1000 :: delaysRev)

/-- `retryOperation(operation, maxAttempts)` as a trace. -/
def retryOperation (op : Nat → Except E A) (maxAttempts : Nat) : RetryTrace E A :=
  retryGo op 1 maxAttempts none [] []

example :
    retryOperation (fun i => (.error i : Except Nat Nat)) 3
      = ⟨[1, 2, 3], [1000, 2000], .error (some 3)⟩ := rfl

example :
    retryOperation (fun i => if i ≤ 2 then .error i else (.ok 42 : Except Nat Nat)) 3
      = ⟨[1, 2, 3], [1000, 2000], .ok 42⟩ := rfl

/-! ## `expandAllNodes` (Tree Expansion Driver)

Source (`src/selector.spec.ts`): the loop queries the expand controls, stops
when none remain, otherwise clicks through them, settles, and counts the
iteration, giving up once `iterations` reaches `maxIterations = 100`.  The
widget is abstracted to a state `w : W` with `buttons w` the number of
discoverable expand controls and `round w` the state after one click-all
pass (the Document Access side of one loop body). -/

/-- One run of the `while (keepExpanding && iterations < maxIterations)`
loop; the fuel argument is `maxIterations - iterations`.  Returns the final
iteration count and widget state. -/
def expandGo (buttons : W → Nat) (round : W → W) : Nat → W → Nat → Nat × W
  | 0, w, iters => (iters, w)
  | f + 1, w, iters =>
    if buttons w = 0 then (iters, w)
    else expandGo buttons round f (round w) (iters + 1)

/-- `expandAllNodes(page)`: the loop with its documented iteration ceiling
of 100. -/
def expandAllNodes (buttons : W → Nat) (round : W → W) (w : W) : Nat × W :=
  expandGo buttons round 100 w 0

example :
    expandAllNodes (fun n => if n < 2 then 1 else 0) Nat.succ 0 = (2, 2) := by decide
example :
    expandAllNodes (fun _ => 1) Nat.succ 0 = (100, 100) := by decide

/-! ## Row cells and record extraction (`src/utils.ts`)

A result-table row exposes six cells.  `row.$eval(sel, fn)` throws when the
selector finds nothing (a missing cell is `none`); `extractText` returns
`''` for a missing element but calls `.trim()` on a `null` `textContent`,
which throws.  Inside the `$eval` callbacks, optional chaining (`?.`) and
`|| ''` turn missing sub-elements into the documented defaults, while
`cell.textContent.trim()` in `extractOrganoContratacion` throws on `null`.
Thrown errors are `Except.error ()`. -/

/-- The `.tdExpediente` cell: each field as the callback reads it. -/
structure ExpCell where
  numero : Option String
  descripcion : Option String
  hasELicitacionImg : Bool
  enlace : Option String

/-- The `.tdTipoContrato` cell. -/
structure TipoCell where
  tipo : Option String
  subtipo : Option String

/-- The `.tdOrganoContratacion` cell. -/
structure OrganoCell where
  text : Option String
  href : Option String

/-- One rendered result row: a text-bearing cell is
`some (some s)` (present, text `s`), `some none` (present, `null` text) or
`none` (absent). -/
structure RowEl where
  tdExpediente : Option ExpCell
  tdTipoContrato : Option TipoCell
  tdEstado : Option (Option String)
  tdImporte : Option (Option String)
  tdFechaLimite : Option (Option String)
  tdOrganoContratacion : Option OrganoCell

/-- `expediente` sub-record of a listing. -/
structure Expediente where
  numero : String
  descripcion : String
  licitacionElectronica : Bool
  enlace : String
  deriving DecidableEq

/-- `tipoContrato` sub-record. -/
structure TipoContrato where
  tipo : String
  subtipo : String
  deriving DecidableEq

/-- `organoContratacion` sub-record. -/
structure Organo where
  nombre : String
  enlace : String
  deriving DecidableEq

/-- One extracted listing (`extractRowData`'s return object); `importe` is
`none` exactly when the source computes `NaN`. -/
structure ListingRecord where
  expediente : Expediente
  tipoContrato : TipoContrato
  estado : String
  importe : Option ℚ
  fechaPresentacion : String
  organoContratacion : Organo
  deriving DecidableEq

/-- `extractText(row, sel)`: `''` when the element is missing, the trimmed
text when present, a throw when `textContent` is `null`. -/
def extractText (cell : Option (Option String)) : Except Unit String :=
  match cell with
  | none => .ok ""
  | some none => .error ()
  | some (some s) => .ok (jsTrimStr s)

/-- `extractExpediente`. -/
def extractExpediente (c : Option ExpCell) : Except Unit Expediente :=
  match c with
  | none => .error ()
  | some cell => .ok
    { numero := (cell.numero.map jsTrimStr).getD ""
      descripcion := (cell.descripcion.map jsTrimStr).getD ""
      licitacionElectronica := cell.hasELicitacionImg
      enlace := cell.enlace.getD "" }

/-- `extractTipoContrato`. -/
def extractTipoContrato (c : Option TipoCell) : Except Unit TipoContrato :=
  match c with
  | none => .error ()
  | some cell => .ok
    { tipo := (cell.tipo.map jsTrimStr).getD ""
      subtipo := (cell.subtipo.map jsTrimStr).getD "" }

/-- `extractImporte`: trimmed `.tdImporte` text through `parseAmount`. -/
def extractImporte (cell : Option (Option String)) : Except Unit (Option ℚ) :=
  (extractText cell).map parseAmount

/-- `extractFecha`: trimmed `.tdFechaLimite` text through `parseDate`. -/
def extractFecha (cell : Option (Option String)) : Except Unit String :=
  (extractText cell).map parseDate

/-- `extractOrganoContratacion`: throws when the cell is missing or its
`textContent` is `null`. -/
def extractOrganoContratacion (c : Option OrganoCell) : Except Unit Organo :=
  match c with
  | none => .error ()
  | some cell =>
    match cell.text with
    | none => .error ()
    | some t => .ok { nombre := jsTrimStr t, enlace := cell.href.getD "" }

/-- `extractRowData(row)`: assemble the six fields; any throw aborts the
row. -/
def extractRowData (row : RowEl) : Except Unit ListingRecord := do
  let expediente ← extractExpediente row.tdExpediente
  let tipoContrato ← extractTipoContrato row.tdTipoContrato
  let estado ← extractText row.tdEstado
  let importe ← extractImporte row.tdImporte
  let fechaPresentacion ← extractFecha row.tdFechaLimite
  let organoContratacion ← extractOrganoContratacion row.tdOrganoContratacion
  return { expediente, tipoContrato, estado, importe, fechaPresentacion,
           organoContratacion }

/-! ## `scrapeTable` and the pagination loop of `scrape` (`src/scraper.ts`)

A page model carries the rendered rows and whether a non-disabled
`a.siguientePagina` control is present.  `scrape`'s loop harvests the
current page, then either activates the next-page control and continues, or
terminates; advancing past the last supplied page (a "next" control whose
activation never yields another page) has no result, modelled as `none`. -/

/-- One rendered results page. -/
structure PageModel where
  rows : List RowEl
  hasNext : Bool

/-- `scrapeTable(page)`: extract every row, pushing successes and skipping
(logging) failures. -/
def scrapeTable (p : PageModel) : List ListingRecord :=
  p.rows.foldl
    (fun results row =>
      match extractRowData row with
      | .ok r => results ++ [r]
      | .error _ => results) []

/-- The `while (hasNextPage)` loop of `scrape`, fed the sequence of pages
the portal renders. -/
def scrapeLoop : List PageModel → Option (List ListingRecord)
  | [] => none
  | p :: rest =>
    let pageData := scrapeTable p
    if p.hasNext then
      match scrapeLoop rest with
      | some more => some (pageData ++ more)
      | none => none
    else some pageData

/-- `scrape({page})` restricted to its harvesting loop (the navigation
preamble is Document Access, out of scope). -/
def scrape (pages : List PageModel) : Option (List ListingRecord) :=
  scrapeLoop pages

/-! ## Flat-to-hierarchy reconstruction: shared node data

Each flat tree-widget entry exposes a label (`textContent` of the
`tree_label`, `none` when the element or text is missing) and the pixel
width driving `getNodeLevel` (`none` when reading it throws). -/

/-- One entry of the flat rendered node stream (depth-stack variant). -/
structure FlatNode where
  label : Option String
  width : Option Nat

/-- `getNodeLevel`: `Math.floor(width / 19)` — each level indents 19px. -/
def getNodeLevel (width : Nat) : Nat := width / 19

/-- A reconstructed `CPVNode` (`{code, description, level, children}`). -/
inductive CPVNode where
  | mk : String → String → Nat → List CPVNode → CPVNode

/-- The `code` field. -/
def CPVNode.code : CPVNode → String | .mk c _ _ _ => c

/-- The `description` field. -/
def CPVNode.description : CPVNode → String | .mk _ d _ _ => d

/-- The `level` field. -/
def CPVNode.level : CPVNode → Nat | .mk _ _ l _ => l

/-- The `children` field. -/
def CPVNode.children : CPVNode → List CPVNode | .mk _ _ _ ch => ch

/-- Replace a node's children (the functional image of pushing into the
mutable `children` array). -/
def CPVNode.setChildren : CPVNode → List CPVNode → CPVNode
  | .mk c d l _, ch => .mk c d l ch

/-! ## Depth-stack variant (`scrapeCPVTree` of `src/unnamed/part_000`)

```
if (level === 0) { cpvData.push(cpvNode); }
else {
  let currentLevel = cpvData;
  for (let i = 0; i < level - 1; i++) {
    currentLevel = currentLevel[currentLevel.length - 1].children || [];
  }
  currentLevel.push(cpvNode);
}
```
`insertAt k` descends `k` times through the last element's children and
appends; when a list is empty along the way, `currentLevel[length-1]` is
`undefined` and the dereference throws — the surrounding `try/catch` then
skips the node (`insertAt` is `none` and the forest is left unchanged). -/

namespace DepthVariant

/-- Descend `k` last-children links, then append `n` to the list reached;
`none` models the thrown `TypeError` on an empty intermediate list. -/
def insertAt : Nat → List CPVNode → CPVNode → Option (List CPVNode)
  | 0, l, n => some (l ++ [n])
  | k + 1, l, n =>
    match l.getLast? with
    | none => none
    | some p =>
      match insertAt k p.children n with
      | none => none
      | some c => some (l.dropLast ++ [p.setChildren c])

/-- Process one flat entry against the accumulated forest (`cpvData`). -/
def processNode (forest : List CPVNode) (e : FlatNode) : List CPVNode :=
  match e.label, e.width with
  | some s, some w =>
    if s = "" then forest
    else
      let cd := parseLabel s
      let level := getNodeLevel w
      let node : CPVNode := .mk cd.1 cd.2 level []
      if level = 0 then forest ++ [node]
      else
        match insertAt (level - 1) forest node with
        | some f => f
        | none => forest
  | _, _ => forest

/-- `scrapeCPVTree(page)` of `src/unnamed/part_000` on the flat stream. -/
def scrapeCPVTree (stream : List FlatNode) : List CPVNode :=
  stream.foldl processNode []

end DepthVariant

/-- The parent/child level pairs of a forest all satisfy `p`: `nodeLevelsOk`
checks a node's own children, the mutual pair recurses over the tree. -/
def nodeChildLevelsOk (p : Nat → Nat → Bool) (lvl : Nat) (ch : List CPVNode) : Bool :=
  ch.all (fun c => p lvl c.level)

mutual

/-- All parent/child level pairs inside node `n` satisfy `p`. -/
def nodeOkBy (p : Nat → Nat → Bool) : CPVNode → Bool
  | .mk _ _ lvl ch => nodeChildLevelsOk p lvl ch && forestOkBy p ch

/-- All parent/child level pairs inside a forest satisfy `p`. -/
def forestOkBy (p : Nat → Nat → Bool) : List CPVNode → Bool
  | [] => true
  | n :: rest => nodeOkBy p n && forestOkBy p rest

end

/-- The claimed invariant: every child's level is exactly one more than its
parent's. -/
def strictLevelStep (plvl clvl : Nat) : Bool := clvl = plvl + 1

/-- The invariant the depth-stack code actually maintains: a child is one
level below its parent, except that a level-2 node can hang off a level-0
root. -/
def levelStepOrRootJump (plvl clvl : Nat) : Bool :=
  clvl = plvl + 1 || (plvl = 0 && clvl = 2)

example :
    DepthVariant.scrapeCPVTree
      [⟨some "A", some 0⟩, ⟨some "B", some 19⟩, ⟨some "C", some 38⟩]
      = [.mk "" "A" 0 [], .mk "" "B" 1 [.mk "" "C" 2 []]] := rfl

example : DepthVariant.scrapeCPVTree [⟨some "B", some 38⟩] = [] := rfl

example :
    DepthVariant.scrapeCPVTree [⟨some "A", some 0⟩, ⟨some "B", some 38⟩]
      = [.mk "" "A" 0 [.mk "" "B" 2 []]] := rfl

/-! ## Positional-path variant (`scrapeCPVTree` of `src/selector.spec.ts`)

Each node's position is the list of sibling indices from the document root
(the `indices.join('-')` key).  The code stores every node in
`nodeMap.set(path, node)` *before* looking up the parent key (the path with
its last segment removed, via `split('-').slice(0, -1).join('-')`); a found
parent gets the node pushed into its `children`, otherwise the node joins
`rootNodes`.  Because nodes are mutable shared references, the state is
modelled as a heap: `nodes[i]` is the node created `i`-th (among the
successfully processed entries), children are lists of heap indices, and
`nodeMap` is an association list with the latest binding first (JavaScript
`Map.set` overwrites, `Map.get` sees the latest). -/

/-- One entry of the flat stream, with its document position. -/
structure PathNode where
  label : Option String
  width : Option Nat
  path : List Nat

/-- A heap-allocated CPV node of the positional variant. -/
structure HNode where
  code : String
  description : String
  level : Nat
  childIds : List Nat
  deriving DecidableEq

/-- The mutable state of the positional reconstruction. -/
structure PState where
  nodes : List HNode
  nodeMap : List (List Nat × Nat)
  rootIds : List Nat
  deriving DecidableEq

/-- `nodeMap.get(key)`: the latest binding wins. -/
def lookupKey (key : List Nat) (m : List (List Nat × Nat)) : Option Nat :=
  (m.find? (fun kv => kv.1 = key)).map (·.2)

/-- Append `cid` to the `childIds` of the node at heap index `pid`. -/
def pushChildAt : List HNode → Nat → Nat → List HNode
  | [], _, _ => []
  | n :: rest, 0, cid => { n with childIds := n.childIds ++ [cid] } :: rest
  | n :: rest, k + 1, cid => n :: pushChildAt rest k cid

namespace PathVariant

/-- Process one flat entry: create the node, register its path, then attach
it to the mapped parent or promote it to a root. -/
def processNode (st : PState) (e : PathNode) : PState :=
  match e.label, e.width with
  | some s, some w =>
    if s = "" then st
    else
      let cd := parseLabel s
      let node : HNode := ⟨cd.1, cd.2, getNodeLevel w, []⟩
      let id := st.nodes.length
      let nodes' := st.nodes ++ [node]
      let map' := (e.path, id) :: st.nodeMap
      let parentKey := e.path.dropLast
      match lookupKey parentKey map' with
      | some pid =>
        { nodes := pushChildAt nodes' pid id, nodeMap := map', rootIds := st.rootIds }
      | none =>
        { nodes := nodes', nodeMap := map', rootIds := st.rootIds ++ [id] }
  | _, _ => st

/-- `scrapeCPVTree(page)` of `src/selector.spec.ts` on the flat stream:
the final heap, path map and root list (`rootNodes` is `rootIds` resolved
against `nodes`). -/
def scrapeCPVTree (stream : List PathNode) : PState :=
  stream.foldl processNode ⟨[], [], []⟩

end PathVariant

/-- An entry the loop actually processes (label element present, text
non-empty, level readable). -/
def validEntry (e : PathNode) : Bool :=
  (match e.label with | some s => !(s = "") | none => false) && e.width.isSome

/-- Number of processed entries in a stream prefix — the heap index the
next processed entry receives. -/
def countValid (l : List PathNode) : Nat := (l.filter validEntry).length

/-- Whether some processed entry among the first `j+1` (the node itself
included, exactly as the source inserts the node before the lookup) carries
the parent path of entry `e`. -/
def parentFindable (stream : List PathNode) (j : Nat) (e : PathNode) : Bool :=
  ((stream.take (j + 1)).filter validEntry).any (fun o => o.path = e.path.dropLast)

example :
    PathVariant.scrapeCPVTree
      [⟨some "A", some 0, [2]⟩, ⟨some "B", some 19, [2, 0]⟩,
       ⟨some "C", some 38, [7, 7]⟩]
      = ⟨[⟨"", "A", 0, [1]⟩, ⟨"", "B", 1, []⟩, ⟨"", "C", 2, []⟩],
         [([7, 7], 2), ([2, 0], 1), ([2], 0)], [0, 2]⟩ := rfl

example :
    (PathVariant.scrapeCPVTree [⟨some "S", some 0, []⟩]).rootIds = [] := rfl

/-! ## Remaining definitions used by the statements and proofs -/

/-- The node reached from a forest by `k+1` repeated "last element of the
current list, then its children" steps: `chainNode F 0` is the last root,
`chainNode F (k+1)` descends into the last root's children.  This is the
spine along which `DepthVariant.insertAt` walks. -/
def chainNode : List CPVNode → Nat → Option CPVNode
  | l, 0 => l.getLast?
  | l, k + 1 =>
    match l.getLast? with
    | none => none
    | some p => chainNode p.children k

/-- Invariant of the depth-stack forest: the last root has level 0 or 1, and
the node at spine position `k+1` (when present) has level `k+2`. -/
def ChainInv (F : List CPVNode) : Prop :=
  (∀ n, chainNode F 0 = some n → n.level ≤ 1) ∧
  (∀ k n, chainNode F (k + 1) = some n → n.level = k + 2)

/-- A structurally well-formed row: the three `$eval` cells are present, the
`organo` cell has readable text, and no present text cell has `null`
`textContent` — exactly the conditions under which no extractor throws. -/
def wellFormedRow (r : RowEl) : Bool :=
  r.tdExpediente.isSome && r.tdTipoContrato.isSome &&
  (match r.tdOrganoContratacion with | some c => c.text.isSome | none => false) &&
  (match r.tdEstado with | some none => false | _ => true) &&
  (match r.tdImporte with | some none => false | _ => true) &&
  (match r.tdFechaLimite with | some none => false | _ => true)

/-- A concrete, fully populated row whose amount cell text is `","` —
structurally well-formed, yet the stripped amount text is a lone comma. -/
def importeCommaRow : RowEl :=
  { tdExpediente := some ⟨some "EXP-1", some "desc", true, some "http://x"⟩
    tdTipoContrato := some ⟨some "Obras", some "Generales"⟩
    tdEstado := some (some "Publicada")
    tdImporte := some (some ",")
    tdFechaLimite := some (some "31/12/2024")
    tdOrganoContratacion := some ⟨some "Ministerio", some "http://y"⟩ }

/-! # Theorems -/

/-! ## C4 — Retry Executor -/

theorem retryGo_allFail {E A : Type} (op : Nat → Except E A) :
    ∀ r, 0 < r → ∀ attempt last callsRev delaysRev,
    (∀ i, attempt ≤ i → i < attempt + r → ∃ e, op i = .error e) →
    (retryGo op attempt r last callsRev delaysRev).calls
        = callsRev.reverse ++ (List.range r).map (fun j => attempt + j) ∧
    (retryGo op attempt r last callsRev delaysRev).delays
        = delaysRev.reverse ++ (List.range (r - 1)).map (fun j => (attempt + j) * 1000) ∧
    ∀ e, op (attempt + r - 1) = .error e →
      (retryGo op attempt r last callsRev delaysRev).result = .error (some e) := by
  intro r
  induction r with
  | zero => intro h; omega
  | succ r ih =>
    intro _ attempt last callsRev delaysRev hfail
    obtain ⟨e, he⟩ := hfail attempt (le_refl _) (by omega)
    by_cases hr : r = 0
    · subst hr
      simp only [retryGo, he, if_pos rfl]
      refine ⟨by rw [show List.range 1 = [0] from rfl]; simp, by simp, ?_⟩
      intro e' he'
      have : e' = e := by
        have h1 : op (attempt + 1 - 1) = op attempt := by norm_num
        rw [h1, he] at he'
        exact (Except.error.injEq _ _).mp he'.symm
      simp [this]
    · have hr1 : 0 < r := Nat.pos_of_ne_zero hr
      simp only [retryGo, he, if_neg hr]
      have hfail' : ∀ i, attempt + 1 ≤ i → i < attempt + 1 + r → ∃ e, op i = .error e := by
        intro i h1 h2; exact hfail i (by omega) (by omega)
      obtain ⟨hc, hd, hres⟩ := ih hr1 (attempt + 1) (some e)
        (attempt :: callsRev) (attempt * 1000 :: delaysRev) hfail'
      refine ⟨?_, ?_, ?_⟩
      · rw [hc]
        have : (List.range (r + 1)).map (fun j => attempt + j)
            = attempt :: (List.range r).map (fun j => attempt + 1 + j) := by
          rw [List.range_succ_eq_map, List.map_cons, List.map_map]
          refine congrArg₂ _ (by simp) (List.map_congr_left ?_)
          intro a _; simp only [Function.comp_apply]; omega
        rw [this]; simp
      · rw [hd]
        have : (List.range (r + 1 - 1)).map (fun j => (attempt + j) * 1000)
            = attempt * 1000 :: (List.range (r - 1)).map (fun j => (attempt + 1 + j) * 1000) := by
          have hr2 : r + 1 - 1 = (r - 1) + 1 := by omega
          rw [hr2, List.range_succ_eq_map, List.map_cons, List.map_map]
          refine congrArg₂ _ (by simp) (List.map_congr_left ?_)
          intro a _; simp only [Function.comp_apply]; omega
        rw [this]; simp
      · intro e' he'
        refine hres e' ?_
        have : attempt + 1 + r - 1 = attempt + (r + 1) - 1 := by omega
        rw [this]; exact he'

theorem retryGo_succeeds {E A : Type} (op : Nat → Except E A) :
    ∀ r attempt k v last callsRev delaysRev, attempt ≤ k → k < attempt + r →
    op k = .ok v →
    (∀ i, attempt ≤ i → i < k → ∃ e, op i = .error e) →
    (retryGo op attempt r last callsRev delaysRev).result = .ok v := by
  intro r
  induction r with
  | zero => intro attempt k _ _ _ _ h1 h2; omega
  | succ r ih =>
    intro attempt k v last callsRev delaysRev h1 h2 hok hfail
    by_cases hak : attempt = k
    · subst hak
      simp [retryGo, hok]
    · obtain ⟨e, he⟩ := hfail attempt (le_refl _) (by omega)
      have hr : r ≠ 0 := by omega
      simp only [retryGo, he, if_neg hr]
      exact ih (attempt + 1) k v (some e) _ _ (by omega) (by omega) hok
        (fun i hi1 hi2 => hfail i (by omega) hi2)

/-- C4: with `maxAttempts ≥ 1`, an operation failing on every attempt is
invoked exactly at attempts `1..maxAttempts`, a wait of
`attempt_index * 1000` ms follows each non-final failed attempt, and the
final attempt's own error is thrown; an operation that first succeeds at
some attempt `k ≤ maxAttempts` yields that attempt's result. -/
theorem retryOperation_spec {E A : Type} (op : Nat → Except E A) (n : Nat)
    (hn : 1 ≤ n) :
    ((∀ i, 1 ≤ i → i ≤ n → ∃ e, op i = .error e) →
      (retryOperation op n).calls = (List.range n).map (fun j => 1 + j) ∧
      (retryOperation op n).delays
          = (List.range (n - 1)).map (fun j => (1 + j) * 1000) ∧
      ∀ e, op n = .error e → (retryOperation op n).result = .error (some e)) ∧
    (∀ k v, 1 ≤ k → k ≤ n → op k = .ok v →
      (∀ i, 1 ≤ i → i < k → ∃ e, op i = .error e) →
      (retryOperation op n).result = .ok v) := by
  constructor
  · intro hfail
    obtain ⟨hc, hd, hres⟩ := retryGo_allFail op n (by omega) 1 none [] []
      (fun i hi1 hi2 => hfail i hi1 (by omega))
    refine ⟨by simpa using hc, by simpa using hd, ?_⟩
    intro e he
    refine hres e ?_
    have : 1 + n - 1 = n := by omega
    rw [this]; exact he
  · intro k v h1 h2 hok hfail
    exact retryGo_succeeds op n 1 k v none [] [] h1 (by omega) hok hfail

/-- Witness for C4 at a concrete operation: always-failing (`maxAttempts = 3`)
and fail-twice-then-succeed. -/
theorem retryOperation_spec_witness :
    (retryOperation (fun i => (.error i : Except Nat Nat)) 3).calls = [1, 2, 3] ∧
    (retryOperation (fun i => (.error i : Except Nat Nat)) 3).delays = [1000, 2000] ∧
    (retryOperation (fun i => (.error i : Except Nat Nat)) 3).result = .error (some 3) ∧
    (retryOperation
        (fun i => if i ≤ 2 then .error i else (.ok 42 : Except Nat Nat)) 3).result
      = .ok 42 := by
  have h1 := (retryOperation_spec (fun i => (.error i : Except Nat Nat)) 3
    (by norm_num)).1 (fun i _ _ => ⟨i, rfl⟩)
  have h2 := (retryOperation_spec
      (fun i => if i ≤ 2 then .error i else (.ok 42 : Except Nat Nat)) 3
      (by norm_num)).2 3 42 (by norm_num) (le_refl 3) (by norm_num)
    (fun i hi1 hi2 => ⟨i, by simp [show i ≤ 2 by omega]⟩)
  refine ⟨by rw [h1.1]; rfl, by rw [h1.2.1]; rfl, h1.2.2 3 rfl, h2⟩

/-! ## C6 — Tree Expansion Driver termination -/

theorem expandGo_fixpoint {W : Type} (buttons : W → Nat) (round : W → W) :
    ∀ k f, k ≤ f → ∀ w i, buttons (round^[k] w) = 0 →
    ∃ j w', expandGo buttons round f w i = (i + j, w') ∧ j ≤ k ∧ buttons w' = 0 := by
  intro k
  induction k with
  | zero =>
    intro f _ w i h0
    rw [Function.iterate_zero_apply] at h0
    cases f with
    | zero => exact ⟨0, w, by simp [expandGo], by omega, h0⟩
    | succ f => exact ⟨0, w, by simp [expandGo, h0], by omega, h0⟩
  | succ k ih =>
    intro f hf w i hk
    obtain ⟨f', rfl⟩ : ∃ f', f = f' + 1 := ⟨f - 1, by omega⟩
    by_cases h0 : buttons w = 0
    · exact ⟨0, w, by simp [expandGo, h0], by omega, h0⟩
    · rw [Function.iterate_succ_apply] at hk
      obtain ⟨j, w', hrun, hj, hw'⟩ := ih f' (by omega) (round w) (i + 1) hk
      refine ⟨j + 1, w', ?_, by omega, hw'⟩
      simp only [expandGo, if_neg h0]
      rw [hrun, show i + 1 + j = i + (j + 1) from by omega]

theorem expandGo_ceiling {W : Type} (buttons : W → Nat) (round : W → W) :
    ∀ f w i, (∀ k, k < f → buttons (round^[k] w) ≠ 0) →
    expandGo buttons round f w i = (i + f, round^[f] w) := by
  intro f
  induction f with
  | zero => intro w i _; simp [expandGo]
  | succ f ih =>
    intro w i hne
    have h0 : buttons w ≠ 0 := by
      have := hne 0 (by omega); rwa [Function.iterate_zero_apply] at this
    simp only [expandGo, if_neg h0]
    have := ih (round w) (i + 1)
      (fun k hk => by
        have := hne (k + 1) (by omega)
        rwa [Function.iterate_succ_apply] at this)
    rw [this, Function.iterate_succ_apply]
    congr 1; omega

/-- C6: `expandAllNodes` always terminates and returns; when some iterate of
the click-all round reaches a state with zero expand controls before the
ceiling, the loop stops by then (strictly under 100 iterations) with zero
controls discoverable; when every iterate keeps exposing a control, the loop
stops after exactly 100 iterations — by returning normally, not by an
error. -/
theorem expandAllNodes_spec {W : Type} (buttons : W → Nat) (round : W → W)
    (w : W) :
    (∀ k, k < 100 → buttons (round^[k] w) = 0 →
      ∃ j w', expandAllNodes buttons round w = (j, w') ∧ j ≤ k ∧ j < 100 ∧
        buttons w' = 0) ∧
    ((∀ k, k ≤ 100 → buttons (round^[k] w) ≠ 0) →
      expandAllNodes buttons round w = (100, round^[100] w)) := by
  constructor
  · intro k hk h0
    obtain ⟨j, w', hrun, hj, hw'⟩ :=
      expandGo_fixpoint buttons round k 100 (by omega) w 0 h0
    exact ⟨j, w', by simpa [expandAllNodes] using hrun, hj, by omega, hw'⟩
  · intro hne
    have := expandGo_ceiling buttons round 100 w 0
      (fun k hk => hne k (by omega))
    simpa [expandAllNodes] using this

/-- Witness for C6: a widget whose controls vanish after two rounds stops at
iteration 2 with no controls left; a widget that always exposes one control
runs exactly 100 iterations. -/
theorem expandAllNodes_spec_witness :
    (∃ j w', expandAllNodes (fun n => if n < 2 then 1 else 0) Nat.succ 0 = (j, w')
      ∧ j ≤ 2 ∧ j < 100 ∧ (if w' < 2 then 1 else 0) = 0) ∧
    expandAllNodes (fun _ => 1) Nat.succ 0 = (100, Nat.succ^[100] 0) := by
  constructor
  · exact (expandAllNodes_spec (fun n => if n < 2 then 1 else 0) Nat.succ 0).1
      2 (by norm_num) (by decide)
  · exact (expandAllNodes_spec (fun _ => 1) Nat.succ 0).2 (fun k _ => one_ne_zero)

/-! ## C7 / C10 — amount parsing -/

theorem takeWhile_append_stop {α : Type} (p : α → Bool) (x : α) (hx : p x = false) :
    ∀ (l t : List α), (∀ c ∈ l, p c = true) →
    (l ++ x :: t).takeWhile p = l ∧ (l ++ x :: t).dropWhile p = x :: t := by
  intro l
  induction l with
  | nil => intro t _; simp [List.takeWhile_cons, List.dropWhile_cons, hx]
  | cons a l ih =>
    intro t hall
    have ha : p a = true := hall a (by simp)
    have := ih t (fun c hc => hall c (by simp [hc]))
    simp [List.takeWhile_cons, List.dropWhile_cons, ha, this.1, this.2]

theorem replaceFirstComma_no_comma :
    ∀ (l t : List Char), (∀ c ∈ l, c.isDigit = true) →
    replaceFirstComma (l ++ ',' :: t) = l ++ '.' :: t := by
  intro l
  induction l with
  | nil => intro t _; simp [replaceFirstComma]
  | cons a l ih =>
    intro t hall
    have ha : a.isDigit = true := hall a (by simp)
    have hne : ¬(a = ',') := by
      intro h; subst h; simp [Char.isDigit] at ha
    simp [replaceFirstComma, hne, ih t (fun c hc => hall c (by simp [hc]))]

theorem jsParseFloat_nonneg (cs : List Char) :
    ∀ q : ℚ, jsParseFloat cs = some q → 0 ≤ q := by
  intro q h
  unfold jsParseFloat at h
  split at h
  · split at h
    · exact absurd h (by simp)
    · have hq : _ = q := (Option.some.injEq _ _).mp h
      rw [← hq]
      positivity
  · split at h
    · exact absurd h (by simp)
    · have hq : _ = q := (Option.some.injEq _ _).mp h
      rw [← hq]; exact Nat.cast_nonneg _

theorem parseAmount_nonneg (s : String) :
    ∀ q : ℚ, parseAmount s = some q → 0 ≤ q := by
  intro q h
  unfold parseAmount at h
  split at h
  · have hq : (0 : ℚ) = q := (Option.some.injEq _ _).mp h
    rw [← hq]
  · exact jsParseFloat_nonneg _ q h

theorem parseAmount_stripped_empty (s : String)
    (h : stripNonDigitComma s.data = []) : parseAmount s = some 0 := by
  unfold parseAmount
  rw [h]
  simp [replaceFirstComma]

/-- C7 counterexample: on `","` (stripped form a lone comma, hence
non-numeric), the conversion returns NaN (`none`), not the claimed `0`. -/
theorem parseAmount_claim_cex :
    parseAmount "," = none ∧ parseAmount "," ≠ some 0 := by decide

/-- C7 as amended: the three documented values hold; a text whose stripped
form is empty yields exactly `0`; every numeric result is non-negative; but
a non-empty, non-numeric stripped form (such as a lone comma) yields NaN
rather than `0` — so `none` only arises with a non-empty stripped form. -/
theorem parseAmount_spec :
    parseAmount "1.234,56 EUR" = some (1234.56 : ℚ) ∧
    parseAmount "" = some 0 ∧
    parseAmount "12,50 EUR" = some (12.5 : ℚ) ∧
    (∀ s : String, stripNonDigitComma s.data = [] → parseAmount s = some 0) ∧
    (∀ (s : String) (q : ℚ), parseAmount s = some q → 0 ≤ q) ∧
    (∀ s : String, parseAmount s = none → stripNonDigitComma s.data ≠ []) := by
  refine ⟨?_, by decide, ?_, parseAmount_stripped_empty, parseAmount_nonneg, ?_⟩
  · rw [show parseAmount "1.234,56 EUR"
        = some (((1234 : ℕ) : ℚ) + ((56 : ℕ) : ℚ) / (10 : ℚ) ^ (2 : ℕ)) from rfl]
    norm_num
  · rw [show parseAmount "12,50 EUR"
        = some (((12 : ℕ) : ℚ) + ((50 : ℕ) : ℚ) / (10 : ℚ) ^ (2 : ℕ)) from rfl]
    norm_num
  · intro s hnone hempty
    rw [parseAmount_stripped_empty s hempty] at hnone
    exact absurd hnone (by simp)

/-- Witness for C7's quantified parts at concrete inputs. -/
theorem parseAmount_spec_witness :
    parseAmount "abc" = some 0 ∧ parseAmount "E U R" = some 0 := by
  exact ⟨parseAmount_spec.2.2.2.1 "abc" (by decide),
         parseAmount_spec.2.2.2.1 "E U R" (by decide)⟩

theorem jsParseFloat_two_commas (d1 d2 r : List Char)
    (h1 : ∀ c ∈ d1, c.isDigit = true) (h2 : ∀ c ∈ d2, c.isDigit = true) :
    jsParseFloat (d1 ++ '.' :: (d2 ++ ',' :: r))
      = if d1.isEmpty && d2.isEmpty then none
        else some ((digitsToNat d1 : ℚ) + (digitsToNat d2 : ℚ) / (10 : ℚ) ^ d2.length) := by
  have hdot : ('.' : Char).isDigit = false := by decide
  have hcomma : (',' : Char).isDigit = false := by decide
  obtain ⟨ht1, hd1⟩ := takeWhile_append_stop Char.isDigit '.' hdot d1 (d2 ++ ',' :: r) h1
  obtain ⟨ht2, _⟩ := takeWhile_append_stop Char.isDigit ',' hcomma d2 r h2
  unfold jsParseFloat
  rw [ht1, hd1]
  simp only [ht2]

theorem parseAmount_two_commas (s : String) (d1 d2 r : List Char)
    (hs : stripNonDigitComma s.data = d1 ++ ',' :: (d2 ++ ',' :: r))
    (h1 : ∀ c ∈ d1, c.isDigit = true) (h2 : ∀ c ∈ d2, c.isDigit = true) :
    parseAmount s
      = if d1.isEmpty && d2.isEmpty then none
        else some ((digitsToNat d1 : ℚ) + (digitsToNat d2 : ℚ) / (10 : ℚ) ^ d2.length) := by
  unfold parseAmount
  rw [hs, replaceFirstComma_no_comma d1 (d2 ++ ',' :: r) h1]
  have hne : ¬(d1 ++ '.' :: (d2 ++ ',' :: r)).isEmpty = true := by
    simp
  rw [if_neg hne]
  exact jsParseFloat_two_commas d1 d2 r h1 h2

/-- C10: when the stripped amount text holds two or more commas, only the
leftmost becomes the decimal point and `parseFloat` stops at the second, so
the result is determined by the digits before the first comma and between
the first and second commas — the tail after the second comma contributes
nothing; in particular `"1,234,56"` yields `1.234`, not `1234.56`. -/
theorem parseAmount_second_comma_spec :
    (∀ (s₁ s₂ : String) (d1 d2 r₁ r₂ : List Char),
      stripNonDigitComma s₁.data = d1 ++ ',' :: (d2 ++ ',' :: r₁) →
      stripNonDigitComma s₂.data = d1 ++ ',' :: (d2 ++ ',' :: r₂) →
      (∀ c ∈ d1, c.isDigit = true) → (∀ c ∈ d2, c.isDigit = true) →
      parseAmount s₁ = parseAmount s₂) ∧
    parseAmount "1,234,56" = some (1.234 : ℚ) ∧
    parseAmount "1,234,56" ≠ some (1234.56 : ℚ) := by
  refine ⟨?_, ?_, ?_⟩
  · intro s₁ s₂ d1 d2 r₁ r₂ hs₁ hs₂ h1 h2
    rw [parseAmount_two_commas s₁ d1 d2 r₁ hs₁ h1 h2,
        parseAmount_two_commas s₂ d1 d2 r₂ hs₂ h1 h2]
  · rw [show parseAmount "1,234,56"
        = some (((1 : ℕ) : ℚ) + ((234 : ℕ) : ℚ) / (10 : ℚ) ^ (3 : ℕ)) from rfl]
    norm_num
  · rw [show parseAmount "1,234,56"
        = some (((1 : ℕ) : ℚ) + ((234 : ℕ) : ℚ) / (10 : ℚ) ^ (3 : ℕ)) from rfl]
    intro h
    have := (Option.some.injEq _ _).mp h
    norm_num at this

/-- Witness for C10: two amount texts agreeing before their second comma but
differing after it parse to the same value. -/
theorem parseAmount_second_comma_spec_witness :
    parseAmount "1,234,56" = parseAmount "1,234,9 9 EUR" := by
  exact parseAmount_second_comma_spec.1 "1,234,56" "1,234,9 9 EUR"
    ['1'] ['2', '3', '4'] ['5', '6'] ['9', '9']
    (by decide) (by decide) (by decide) (by decide)

/-! ## C8 — date conversion -/

theorem digitChar_isDigit (n : Nat) : (digitChar n).isDigit = true := by
  match n with
  | 0 | 1 | 2 | 3 | 4 | 5 | 6 | 7 | 8 => decide
  | n + 9 => rfl

theorem digitVal_digitChar (n : Nat) (h : n < 10) :
    digitVal (digitChar n) = n := by
  interval_cases n <;> rfl

theorem twoDigits_pad (n : Nat) (h : n < 100) :
    twoDigits (digitChar (n / 10 % 10)) (digitChar (n % 10)) = n := by
  unfold twoDigits
  rw [digitVal_digitChar _ (Nat.mod_lt _ (by norm_num)),
      digitVal_digitChar _ (Nat.mod_lt _ (by norm_num))]
  omega

theorem fourDigits_pad (n : Nat) (h : n < 10000) :
    fourDigits (digitChar (n / 1000 % 10)) (digitChar (n / 100 % 10))
        (digitChar (n / 10 % 10)) (digitChar (n % 10)) = n := by
  unfold fourDigits
  rw [digitVal_digitChar _ (Nat.mod_lt _ (by norm_num)),
      digitVal_digitChar _ (Nat.mod_lt _ (by norm_num)),
      digitVal_digitChar _ (Nat.mod_lt _ (by norm_num)),
      digitVal_digitChar _ (Nat.mod_lt _ (by norm_num))]
  omega

theorem daysInMonth_le (m y : Nat) : daysInMonth m y ≤ 31 := by
  unfold daysInMonth
  split
  · split <;> omega
  · split <;> omega

theorem parseDDMMYYYY_mk (d m y : Nat) (hm1 : 1 ≤ m) (hm2 : m ≤ 12)
    (hd1 : 1 ≤ d) (hd2 : d ≤ daysInMonth m y) (hy : y < 10000) :
    parseDDMMYYYY (mkDDMMYYYY d m y).data = some (d, m, y) := by
  have hd100 : d < 100 := by have := daysInMonth_le m y; omega
  show parseDDMMYYYY (pad2 d ++ '/' :: (pad2 m ++ '/' :: pad4 y)) = some (d, m, y)
  simp only [pad2, pad4, List.cons_append, List.nil_append]
  unfold parseDDMMYYYY
  dsimp only
  rw [if_pos (by simp [digitChar_isDigit]),
      twoDigits_pad d hd100, twoDigits_pad m (by omega), fourDigits_pad y hy,
      if_pos (by simp only [Bool.and_eq_true, decide_eq_true_eq]; omega)]

/-- C8: every text rendering a valid `dd/MM/yyyy` date is mapped to its
canonical `yyyy-MM-dd` form (so `"31/12/2024"` to `"2024-12-31"`), and every
text the pattern fails to parse is returned unchanged instead of raising. -/
theorem parseDate_spec :
    (∀ d m y, 1 ≤ m → m ≤ 12 → 1 ≤ d → d ≤ daysInMonth m y → y < 10000 →
      parseDate (mkDDMMYYYY d m y) = String.mk (formatYYYYMMDD d m y)) ∧
    (∀ t : String, parseDDMMYYYY t.data = none → parseDate t = t) ∧
    parseDate "31/12/2024" = "2024-12-31" ∧
    parseDate "not a date" = "not a date" := by
  refine ⟨?_, ?_, by decide, by decide⟩
  · intro d m y hm1 hm2 hd1 hd2 hy
    unfold parseDate
    rw [parseDDMMYYYY_mk d m y hm1 hm2 hd1 hd2 hy]
  · intro t h
    unfold parseDate
    rw [h]

/-- Witness for C8: the round trip at 31/12/2024 and the passthrough at a
non-date text. -/
theorem parseDate_spec_witness :
    parseDate (mkDDMMYYYY 31 12 2024) = String.mk (formatYYYYMMDD 31 12 2024) ∧
    parseDate "29/02/2023" = "29/02/2023" := by
  exact ⟨parseDate_spec.1 31 12 2024 (by norm_num) (by norm_num) (by norm_num)
      (by decide) (by norm_num),
    parseDate_spec.2.1 "29/02/2023" (by decide)⟩

/-! ## C9 — `parseLabel` -/

theorem first8Digits_append (d8 rest : List Char) (hlen : d8.length = 8)
    (hdig : ∀ c ∈ d8, c.isDigit = true) :
    first8Digits (d8 ++ rest) = some (d8, rest) := by
  unfold first8Digits
  have htake : (d8 ++ rest).take 8 = d8 := by
    rw [← hlen]; exact List.take_left d8 rest
  have hdrop : (d8 ++ rest).drop 8 = rest := by
    rw [← hlen]; exact List.drop_left d8 rest
  rw [htake, hdrop, if_pos]
  simp only [Bool.and_eq_true, decide_eq_true_eq, List.all_eq_true]
  exact ⟨hlen, hdig⟩

theorem jsTrim_ne_nil_of_arg_ne {cs : List Char} (h : jsTrim cs ≠ []) : cs ≠ [] := by
  intro hnil; subst hnil; exact h rfl

theorem regexLabelMatch_coded (d8 desc : List Char) (hlen : d8.length = 8)
    (hdig : ∀ c ∈ d8, c.isDigit = true) (hdesc : desc ≠ [])
    (hterm : ∀ c ∈ desc, isLineTerm c = false) :
    regexLabelMatch (d8 ++ '-' :: desc) = some (some d8, desc) := by
  unfold regexLabelMatch
  rw [first8Digits_append d8 ('-' :: desc) hlen hdig]
  have hok : dotPlusOk desc = true := by
    unfold dotPlusOk
    simp only [Bool.and_eq_true, Bool.not_eq_true', List.all_eq_true]
    exact ⟨by simpa using hdesc, fun c hc => by simp [hterm c hc]⟩
  simp [hok]

theorem regexLabelMatch_plain (t : List Char) (h8 : first8Digits t = none)
    (hhead : t.head? ≠ some '-') :
    regexLabelMatch t = if dotPlusOk t then some (none, t) else none := by
  unfold regexLabelMatch
  rw [h8]
  dsimp only
  split
  · exact absurd rfl hhead
  · rfl

/-- C9 counterexample: a label with no leading code but a leading hyphen has
the hyphen consumed by the regex, so the description is not the full trimmed
text (`"abc"`, not `"-abc"`); and a coded label with an empty remainder
backtracks, returning the hyphen itself as description instead of the
trimmed (empty) remainder. -/
theorem parseLabel_claim_cex :
    parseLabel "-abc" = ("", "abc") ∧ ("abc" : String) ≠ "-abc" ∧
    parseLabel "12345678-" = ("12345678", "-") ∧ ("-" : String) ≠ "" := by
  decide

/-- C9 as amended: for a label of eight digits, a hyphen, and a non-blank
line-terminator-free description, `parseLabel` returns the digit code and
the trimmed remainder; for a label text that neither starts with eight
digits nor with a hyphen, it returns an empty code and the full trimmed
text.  (A leading hyphen with no code is consumed by the regex before the
description is taken, and a blank remainder after the hyphen makes the
match backtrack — the counterexample's two inputs.) -/
theorem parseLabel_spec :
    (∀ d8 desc : List Char, d8.length = 8 → (∀ c ∈ d8, c.isDigit = true) →
      (∀ c ∈ desc, isLineTerm c = false) → jsTrim desc ≠ [] →
      parseLabel (String.mk (d8 ++ '-' :: desc))
        = (String.mk d8, String.mk (jsTrim desc))) ∧
    (∀ t : List Char, first8Digits t = none → t.head? ≠ some '-' →
      parseLabel (String.mk t) = ("", String.mk (jsTrim t))) := by
  constructor
  · intro d8 desc hlen hdig hterm htrim
    have hne : (jsTrim desc).isEmpty = false := by
      cases h : (jsTrim desc).isEmpty
      · rfl
      · exact absurd (List.isEmpty_iff.mp h) htrim
    unfold parseLabel
    rw [show (String.mk (d8 ++ '-' :: desc)).data = d8 ++ '-' :: desc from rfl,
        regexLabelMatch_coded d8 desc hlen hdig (jsTrim_ne_nil_of_arg_ne htrim) hterm]
    dsimp only
    rw [hne]
    simp
  · intro t h8 hhead
    unfold parseLabel
    rw [show (String.mk t).data = t from rfl, regexLabelMatch_plain t h8 hhead]
    by_cases hok : dotPlusOk t = true
    · rw [if_pos hok]
      dsimp only
      rw [ite_self]
    · rw [if_neg hok]

/-- Witness for C9 at concrete labels: a coded label and a plain one. -/
theorem parseLabel_spec_witness :
    parseLabel (String.mk (['1', '2', '3', '4', '5', '6', '7', '8'] ++ '-' ::
        [' ', 'S', 'e', 'r', 'v', 'i', 'c', 'e', 's']))
      = (String.mk ['1', '2', '3', '4', '5', '6', '7', '8'],
         String.mk (jsTrim [' ', 'S', 'e', 'r', 'v', 'i', 'c', 'e', 's'])) ∧
    parseLabel (String.mk ['H', 'o', 'l', 'a'])
      = ("", String.mk (jsTrim ['H', 'o', 'l', 'a'])) := by
  exact ⟨parseLabel_spec.1 ['1', '2', '3', '4', '5', '6', '7', '8']
      [' ', 'S', 'e', 'r', 'v', 'i', 'c', 'e', 's'] (by decide) (by decide)
      (by decide) (by decide),
    parseLabel_spec.2 ['H', 'o', 'l', 'a'] (by decide) (by decide)⟩

/-! ## C5 — record extraction -/

/-- C5 counterexample: `importeCommaRow` is structurally well-formed, yet
its extracted record carries `importe = none` (the source's `NaN`) — neither
a non-negative number nor `0`. -/
theorem extractRowData_claim_cex :
    wellFormedRow importeCommaRow = true ∧
    (extractRowData importeCommaRow).map ListingRecord.importe = Except.ok none ∧
    (∀ q : ℚ, (extractRowData importeCommaRow).map ListingRecord.importe
      ≠ Except.ok (some q)) := by
  refine ⟨by decide, rfl, ?_⟩
  intro q h
  rw [show (extractRowData importeCommaRow).map ListingRecord.importe
      = Except.ok none from rfl] at h
  simp at h

/-- C5 as amended: for every structurally well-formed row, extraction
succeeds with a complete record (all six fields defined); the amount is
non-negative whenever it is a number, and it is exactly `0` when the
stripped amount text is empty (in particular when the amount cell is
absent) — but a non-empty non-numeric stripped text yields `NaN` instead. -/
theorem extractRowData_spec (row : RowEl) (hwf : wellFormedRow row = true) :
    ∃ rec : ListingRecord, extractRowData row = .ok rec ∧
      (∀ q : ℚ, rec.importe = some q → 0 ≤ q) ∧
      (∀ s : String, row.tdImporte = some (some s) →
        stripNonDigitComma (jsTrimStr s).data = [] → rec.importe = some 0) ∧
      (row.tdImporte = none → rec.importe = some 0) := by
  obtain ⟨te, tt, tes, tim, tfe, tor⟩ := row
  rcases te with _ | ec
  · exact absurd hwf (by simp [wellFormedRow])
  rcases tt with _ | tc
  · exact absurd hwf (by simp [wellFormedRow])
  rcases tor with _ | ⟨otext, ohref⟩
  · exact absurd hwf (by simp [wellFormedRow])
  rcases otext with _ | ot
  · exact absurd hwf (by simp [wellFormedRow])
  rcases tes with _ | (_ | es) <;> rcases tim with _ | (_ | im) <;>
    rcases tfe with _ | (_ | fe) <;>
    first
      | (simp [wellFormedRow] at hwf; done)
      | (refine ⟨_, rfl, ?_, ?_, ?_⟩
         · intro q hq
           dsimp only at hq
           exact parseAmount_nonneg _ q hq
         · intro s hs hstrip
           dsimp only at hs
           first
             | (simp at hs; done)
             | (simp only [Option.some.injEq] at hs
                subst hs
                dsimp only
                exact parseAmount_stripped_empty _ hstrip)
         · intro hnone
           dsimp only at hnone ⊢
           first
             | (simp at hnone; done)
             | decide)

/-- Witness for C5 at a fully populated concrete row. -/
theorem extractRowData_spec_witness :
    ∃ rec : ListingRecord,
      extractRowData
        { tdExpediente := some ⟨some "EXP-2", some "obra", false, none⟩
          tdTipoContrato := some ⟨some "Obras", none⟩
          tdEstado := some (some "Publicada")
          tdImporte := some (some "12,50 EUR")
          tdFechaLimite := some (some "31/12/2024")
          tdOrganoContratacion := some ⟨some "Ministerio", none⟩ } = .ok rec ∧
      (∀ q : ℚ, rec.importe = some q → 0 ≤ q) ∧
      (∀ s : String,
        (some (some "12,50 EUR") : Option (Option String)) = some (some s) →
        stripNonDigitComma (jsTrimStr s).data = [] → rec.importe = some 0) ∧
      ((some (some "12,50 EUR") : Option (Option String)) = none →
        rec.importe = some 0) := by
  exact extractRowData_spec
    { tdExpediente := some ⟨some "EXP-2", some "obra", false, none⟩
      tdTipoContrato := some ⟨some "Obras", none⟩
      tdEstado := some (some "Publicada")
      tdImporte := some (some "12,50 EUR")
      tdFechaLimite := some (some "31/12/2024")
      tdOrganoContratacion := some ⟨some "Ministerio", none⟩ } (by decide)

/-! ## C3 — Paginated Harvester -/

theorem scrapeTable_go (rows : List RowEl) :
    ∀ acc : List ListingRecord,
    rows.foldl
      (fun results row =>
        match extractRowData row with
        | .ok r => results ++ [r]
        | .error _ => results) acc
      = acc ++ rows.filterMap (fun r => (extractRowData r).toOption) := by
  induction rows with
  | nil => intro acc; simp
  | cons row rows ih =>
    intro acc
    rw [List.foldl_cons, List.filterMap_cons]
    cases h : extractRowData row with
    | ok r => rw [ih]; simp [Except.toOption, h]
    | error e => rw [ih]; simp [Except.toOption, h]

theorem scrapeTable_eq_filterMap (p : PageModel) :
    scrapeTable p = p.rows.filterMap (fun r => (extractRowData r).toOption) := by
  unfold scrapeTable
  rw [scrapeTable_go]
  simp

theorem scrapeLoop_concat :
    ∀ (front : List PageModel) (plast : PageModel),
    (∀ p ∈ front, p.hasNext = true) → plast.hasNext = false →
    scrapeLoop (front ++ [plast])
      = some ((front ++ [plast]).map scrapeTable).flatten := by
  intro front
  induction front with
  | nil =>
    intro plast _ hlast
    simp [scrapeLoop, hlast]
  | cons p front ih =>
    intro plast hfront hlast
    have hp : p.hasNext = true := hfront p (by simp)
    have hrest := ih plast (fun q hq => hfront q (by simp [hq])) hlast
    simp only [List.cons_append, scrapeLoop, hp, if_pos, List.append_eq, hrest,
      List.map_cons, List.flatten_cons]

theorem scrapeLoop_allNext :
    ∀ pages : List PageModel, (∀ p ∈ pages, p.hasNext = true) →
    scrapeLoop pages = none := by
  intro pages
  induction pages with
  | nil => intro _; rfl
  | cons p pages ih =>
    intro hall
    have hp : p.hasNext = true := hall p (by simp)
    simp only [scrapeLoop, hp, if_pos, List.append_eq,
      ih (fun q hq => hall q (by simp [hq]))]

/-- C3: for a finite page sequence whose last page exposes no next-page
control and whose other pages all do, the harvesting loop returns exactly
the page-ordered concatenation of each page's successfully extracted rows
(failed rows dropped, successes kept in order); and when every supplied page
keeps exposing a next-page control, the loop never terminates normally —
the absence of the control is its only exit. -/
theorem scrape_spec :
    (∀ (front : List PageModel) (plast : PageModel),
      (∀ p ∈ front, p.hasNext = true) → plast.hasNext = false →
      scrape (front ++ [plast])
        = some (((front ++ [plast]).map
            (fun p => p.rows.filterMap (fun r => (extractRowData r).toOption))).flatten)) ∧
    (∀ pages : List PageModel, (∀ p ∈ pages, p.hasNext = true) →
      scrape pages = none) := by
  constructor
  · intro front plast hfront hlast
    unfold scrape
    rw [scrapeLoop_concat front plast hfront hlast,
        List.map_congr_left (fun p _ => scrapeTable_eq_filterMap p)]
  · intro pages hall
    exact scrapeLoop_allNext pages hall

/-- Witness for C3: a two-page portal; the first page holds one extractable
row and one structurally broken row (dropped), the second holds one row. -/
theorem scrape_spec_witness :
    scrape
      [⟨[⟨some ⟨some "E1", none, false, none⟩, some ⟨none, none⟩,
          none, none, none, some ⟨some "O1", none⟩⟩,
         ⟨none, some ⟨none, none⟩, none, none, none, some ⟨some "O1", none⟩⟩],
        true⟩,
       ⟨[⟨some ⟨some "E2", none, false, none⟩, some ⟨none, none⟩,
          none, none, none, some ⟨some "O2", none⟩⟩], false⟩]
      = some
        (([(⟨[⟨some ⟨some "E1", none, false, none⟩, some ⟨none, none⟩,
              none, none, none, some ⟨some "O1", none⟩⟩,
             ⟨none, some ⟨none, none⟩, none, none, none, some ⟨some "O1", none⟩⟩],
            true⟩ : PageModel),
           (⟨[⟨some ⟨some "E2", none, false, none⟩, some ⟨none, none⟩,
              none, none, none, some ⟨some "O2", none⟩⟩], false⟩ : PageModel)].map
          (fun p => p.rows.filterMap (fun r => (extractRowData r).toOption))).flatten) := by
  exact scrape_spec.1
    [⟨[⟨some ⟨some "E1", none, false, none⟩, some ⟨none, none⟩,
        none, none, none, some ⟨some "O1", none⟩⟩,
       ⟨none, some ⟨none, none⟩, none, none, none, some ⟨some "O1", none⟩⟩],
      true⟩]
    ⟨[⟨some ⟨some "E2", none, false, none⟩, some ⟨none, none⟩,
       none, none, none, some ⟨some "O2", none⟩⟩], false⟩
    (by intro p hp
        have h := List.mem_singleton.mp hp
        subst h
        rfl) rfl

/-! ## C2 — depth-stack level invariant -/

theorem forestOkBy_nil (q : Nat → Nat → Bool) : forestOkBy q [] = true := rfl

theorem forestOkBy_cons (q : Nat → Nat → Bool) (n : CPVNode) (rest : List CPVNode) :
    forestOkBy q (n :: rest) = (nodeOkBy q n && forestOkBy q rest) := by
  simp [forestOkBy]

theorem nodeOkBy_mk (q : Nat → Nat → Bool) (c d : String) (lvl : Nat)
    (ch : List CPVNode) :
    nodeOkBy q (.mk c d lvl ch) = (nodeChildLevelsOk q lvl ch && forestOkBy q ch) := by
  simp [nodeOkBy]

theorem forestOkBy_append (q : Nat → Nat → Bool) :
    ∀ A B : List CPVNode, forestOkBy q (A ++ B) = (forestOkBy q A && forestOkBy q B) := by
  intro A
  induction A with
  | nil => intro B; simp [forestOkBy_nil]
  | cons n A ih =>
    intro B
    rw [List.cons_append, forestOkBy_cons, forestOkBy_cons, ih, Bool.and_assoc]

theorem CPVNode.setChildren_level (p : CPVNode) (ch : List CPVNode) :
    (p.setChildren ch).level = p.level := by
  cases p; rfl

theorem CPVNode.setChildren_children (p : CPVNode) (ch : List CPVNode) :
    (p.setChildren ch).children = ch := by
  cases p; rfl

theorem nodeOkBy_setChildren (q : Nat → Nat → Bool) (p : CPVNode) (ch : List CPVNode) :
    nodeOkBy q (p.setChildren ch)
      = (nodeChildLevelsOk q p.level ch && forestOkBy q ch) := by
  cases p
  rw [CPVNode.setChildren, nodeOkBy_mk, CPVNode.level]

theorem forestOk_getLast (q : Nat → Nat → Bool) {l : List CPVNode} {p : CPVNode}
    (hl : l.getLast? = some p) (hok : forestOkBy q l = true) :
    forestOkBy q l.dropLast = true ∧ nodeOkBy q p = true := by
  have hdec : l.dropLast ++ [p] = l := List.dropLast_append_getLast? p hl
  rw [← hdec, forestOkBy_append, forestOkBy_cons, forestOkBy_nil] at hok
  simp only [Bool.and_eq_true, Bool.and_true] at hok
  exact ⟨hok.1, hok.2⟩

theorem chainNode_nil : ∀ k, chainNode [] k = none := by
  intro k; cases k <;> rfl

theorem chainNode_zero (l : List CPVNode) : chainNode l 0 = l.getLast? := rfl

theorem chainNode_succ (l : List CPVNode) (k : Nat) :
    chainNode l (k + 1)
      = match l.getLast? with
        | none => none
        | some p => chainNode p.children k := rfl

theorem chainNode_succ_of_getLast {l : List CPVNode} {p : CPVNode} (k : Nat)
    (h : l.getLast? = some p) :
    chainNode l (k + 1) = chainNode p.children k := by
  rw [chainNode_succ, h]

theorem insertAt_zero (l : List CPVNode) (n : CPVNode) :
    DepthVariant.insertAt 0 l n = some (l ++ [n]) := rfl

theorem insertAt_succ_inv {k : Nat} {l l' : List CPVNode} {n : CPVNode}
    (h : DepthVariant.insertAt (k + 1) l n = some l') :
    ∃ p c', l.getLast? = some p ∧ DepthVariant.insertAt k p.children n = some c' ∧
      l' = l.dropLast ++ [p.setChildren c'] := by
  unfold DepthVariant.insertAt at h
  cases hl : l.getLast? with
  | none => rw [hl] at h; exact absurd h (by simp)
  | some p =>
    rw [hl] at h
    dsimp only at h
    cases hc : DepthVariant.insertAt k p.children n with
    | none => rw [hc] at h; exact absurd h (by simp)
    | some c' =>
      rw [hc] at h
      exact ⟨p, c', rfl, hc, ((Option.some.injEq _ _).mp h).symm⟩

theorem nodeOkBy_eq (q : Nat → Nat → Bool) (p : CPVNode) :
    nodeOkBy q p
      = (nodeChildLevelsOk q p.level p.children && forestOkBy q p.children) := by
  cases p
  rw [nodeOkBy_mk]
  rfl

theorem nodeChildLevelsOk_append (q : Nat → Nat → Bool) (lvl : Nat)
    (A B : List CPVNode) :
    nodeChildLevelsOk q lvl (A ++ B)
      = (nodeChildLevelsOk q lvl A && nodeChildLevelsOk q lvl B) := by
  simp [nodeChildLevelsOk, List.all_append]

theorem nodeChildLevelsOk_singleton (q : Nat → Nat → Bool) (lvl : Nat)
    (c : CPVNode) :
    nodeChildLevelsOk q lvl [c] = q lvl c.level := by
  simp [nodeChildLevelsOk]

theorem insertAt_chain {n : CPVNode} (hch : n.children = []) :
    ∀ k (l l' : List CPVNode), DepthVariant.insertAt k l n = some l' →
    (∀ j, j < k →
      (chainNode l' j).map CPVNode.level = (chainNode l j).map CPVNode.level) ∧
    chainNode l' k = some n ∧
    (∀ j, chainNode l' (k + j + 1) = none) := by
  intro k
  induction k with
  | zero =>
    intro l l' h
    rw [insertAt_zero] at h
    have e := (Option.some.injEq _ _).mp h
    subst e
    refine ⟨fun j hj => absurd hj (by omega), ?_, ?_⟩
    · rw [chainNode_zero]; exact List.getLast?_concat l
    · intro j
      rw [show 0 + j + 1 = j + 1 from by omega,
          chainNode_succ_of_getLast j (List.getLast?_concat l), hch, chainNode_nil]
  | succ k ih =>
    intro l l' h
    obtain ⟨p, c', hl, hc, rfl⟩ := insertAt_succ_inv h
    have hlast' : (l.dropLast ++ [p.setChildren c']).getLast? = some (p.setChildren c') :=
      List.getLast?_concat _
    obtain ⟨ihlt, ihk, ihnone⟩ := ih p.children c' hc
    refine ⟨?_, ?_, ?_⟩
    · intro j hj
      cases j with
      | zero =>
        rw [chainNode_zero, chainNode_zero, hlast', hl]
        simp [CPVNode.setChildren_level]
      | succ j' =>
        rw [chainNode_succ_of_getLast j' hlast', CPVNode.setChildren_children,
            chainNode_succ_of_getLast j' hl]
        exact ihlt j' (by omega)
    · rw [chainNode_succ_of_getLast k hlast', CPVNode.setChildren_children]
      exact ihk
    · intro j
      rw [show k + 1 + j + 1 = (k + j + 1) + 1 from by omega,
          chainNode_succ_of_getLast _ hlast', CPVNode.setChildren_children]
      exact ihnone j

theorem insertAt_parent :
    ∀ k {l l' : List CPVNode} {n : CPVNode},
    DepthVariant.insertAt (k + 1) l n = some l' →
    ∃ p, chainNode l k = some p := by
  intro k
  induction k with
  | zero =>
    intro l l' n h
    obtain ⟨p, _, hl, _, _⟩ := insertAt_succ_inv h
    exact ⟨p, hl⟩
  | succ k ih =>
    intro l l' n h
    obtain ⟨p, c', hl, hc, _⟩ := insertAt_succ_inv h
    obtain ⟨pa, hpa⟩ := ih hc
    exact ⟨pa, by rw [chainNode_succ_of_getLast k hl]; exact hpa⟩

theorem insertAt_forestOk (q : Nat → Nat → Bool) {n : CPVNode}
    (hn : nodeOkBy q n = true) :
    ∀ k (l l' : List CPVNode), DepthVariant.insertAt k l n = some l' →
    forestOkBy q l = true →
    (k = 0 ∨ ∃ pa, chainNode l (k - 1) = some pa ∧ q pa.level n.level = true) →
    forestOkBy q l' = true := by
  intro k
  induction k with
  | zero =>
    intro l l' h hok _
    rw [insertAt_zero] at h
    have e := (Option.some.injEq _ _).mp h
    subst e
    rw [forestOkBy_append, forestOkBy_cons, forestOkBy_nil, hok, hn]
    rfl
  | succ k ih =>
    intro l l' h hok hside
    obtain ⟨p, c', hl, hc, rfl⟩ := insertAt_succ_inv h
    obtain ⟨hdrop, hp⟩ := forestOk_getLast q hl hok
    rw [nodeOkBy_eq] at hp
    simp only [Bool.and_eq_true] at hp
    obtain ⟨hplev, hpch⟩ := hp
    have hpa : ∃ pa, chainNode l k = some pa ∧ q pa.level n.level = true := by
      rcases hside with h0 | hpa
      · exact absurd h0 (by omega)
      · simpa using hpa
    have hforest : forestOkBy q c' = true := by
      refine ih p.children c' hc hpch ?_
      cases k with
      | zero => exact Or.inl rfl
      | succ k' =>
        obtain ⟨pa, hpa', hq⟩ := hpa
        rw [chainNode_succ_of_getLast k' hl] at hpa'
        exact Or.inr ⟨pa, by simpa using hpa', hq⟩
    have hlevels : nodeChildLevelsOk q p.level c' = true := by
      cases k with
      | zero =>
        rw [insertAt_zero] at hc
        have e := (Option.some.injEq _ _).mp hc
        subst e
        obtain ⟨pa, hpa', hq⟩ := hpa
        rw [chainNode_zero, hl] at hpa'
        have : pa = p := (Option.some.injEq _ _).mp hpa'.symm
        subst this
        rw [nodeChildLevelsOk_append, hplev, nodeChildLevelsOk_singleton, hq]
        rfl
      | succ k' =>
        obtain ⟨p₂, c₂, hl₂, _, rfl⟩ := insertAt_succ_inv hc
        have hdec : p.children.dropLast ++ [p₂] = p.children :=
          List.dropLast_append_getLast? p₂ hl₂
        rw [← hdec, nodeChildLevelsOk_append, nodeChildLevelsOk_singleton] at hplev
        simp only [Bool.and_eq_true] at hplev
        rw [nodeChildLevelsOk_append, hplev.1, nodeChildLevelsOk_singleton,
            CPVNode.setChildren_level, hplev.2]
        rfl
    rw [forestOkBy_append, forestOkBy_cons, forestOkBy_nil, hdrop,
        nodeOkBy_setChildren, hforest, hlevels]
    rfl

theorem append_root_preserves {n : CPVNode} {F : List CPVNode}
    (hch : n.children = []) (hlev : n.level ≤ 1)
    (hok : forestOkBy levelStepOrRootJump F = true) (_hinv : ChainInv F) :
    forestOkBy levelStepOrRootJump (F ++ [n]) = true ∧ ChainInv (F ++ [n]) := by
  have hn : nodeOkBy levelStepOrRootJump n = true := by
    rw [nodeOkBy_eq, hch]; rfl
  refine ⟨by rw [forestOkBy_append, forestOkBy_cons, forestOkBy_nil, hok, hn]; rfl, ?_, ?_⟩
  · intro x hx
    rw [chainNode_zero, List.getLast?_concat] at hx
    have hxn := (Option.some.injEq _ _).mp hx
    subst hxn
    exact hlev
  · intro m x hx
    rw [chainNode_succ_of_getLast m (List.getLast?_concat F), hch, chainNode_nil] at hx
    exact absurd hx (by simp)

theorem insert_preserves {n : CPVNode} {k : Nat} {F F' : List CPVNode}
    (hch : n.children = []) (hlev : n.level = k + 1)
    (hins : DepthVariant.insertAt k F n = some F')
    (hok : forestOkBy levelStepOrRootJump F = true) (hinv : ChainInv F) :
    forestOkBy levelStepOrRootJump F' = true ∧ ChainInv F' := by
  have hn : nodeOkBy levelStepOrRootJump n = true := by
    rw [nodeOkBy_eq, hch]; rfl
  obtain ⟨hlt, hk, hnone⟩ := insertAt_chain hch k F F' hins
  refine ⟨?_, ?_, ?_⟩
  · refine insertAt_forestOk _ hn k F F' hins hok ?_
    cases k with
    | zero => exact Or.inl rfl
    | succ k' =>
      obtain ⟨pa, hpa⟩ := insertAt_parent k' hins
      refine Or.inr ⟨pa, by simpa using hpa, ?_⟩
      cases k' with
      | zero =>
        have hple := hinv.1 pa hpa
        rw [hlev]
        unfold levelStepOrRootJump
        simp only [Bool.or_eq_true, Bool.and_eq_true, decide_eq_true_eq,
          and_true, true_and]
        omega
      | succ j =>
        have hple := hinv.2 j pa hpa
        rw [hlev]
        unfold levelStepOrRootJump
        simp only [Bool.or_eq_true, Bool.and_eq_true, decide_eq_true_eq,
          and_true, true_and]
        omega
  · intro x hx
    cases k with
    | zero =>
      rw [hk] at hx
      have hxn := (Option.some.injEq _ _).mp hx
      subst hxn
      omega
    | succ k' =>
      have hmap := hlt 0 (by omega)
      rw [hx] at hmap
      cases hy : chainNode F 0 with
      | none => rw [hy] at hmap; simp at hmap
      | some y =>
        rw [hy] at hmap
        simp only [Option.map_some'] at hmap
        have hxy : x.level = y.level := (Option.some.injEq _ _).mp hmap
        have := hinv.1 y hy
        omega
  · intro m x hx
    by_cases hmk : m + 1 < k
    · have hmap := hlt (m + 1) hmk
      rw [hx] at hmap
      cases hy : chainNode F (m + 1) with
      | none => rw [hy] at hmap; simp at hmap
      | some y =>
        rw [hy] at hmap
        simp only [Option.map_some'] at hmap
        have hxy : x.level = y.level := (Option.some.injEq _ _).mp hmap
        have := hinv.2 m y hy
        omega
    · by_cases hmk2 : m + 1 = k
      · rw [hmk2, hk] at hx
        have hxn := (Option.some.injEq _ _).mp hx
        subst hxn
        omega
      · obtain ⟨j, hj⟩ : ∃ j, m + 1 = k + j + 1 := ⟨m - k, by omega⟩
        rw [hj, hnone j] at hx
        exact absurd hx (by simp)

theorem processNode_preserves (F : List CPVNode) (e : FlatNode)
    (h : forestOkBy levelStepOrRootJump F = true ∧ ChainInv F) :
    forestOkBy levelStepOrRootJump (DepthVariant.processNode F e) = true ∧
    ChainInv (DepthVariant.processNode F e) := by
  obtain ⟨hok, hinv⟩ := h
  rcases e with ⟨lab, wid⟩
  rcases lab with _ | s
  · exact ⟨hok, hinv⟩
  rcases wid with _ | w
  · exact ⟨hok, hinv⟩
  unfold DepthVariant.processNode
  dsimp only
  by_cases hs : s = ""
  · rw [if_pos hs]; exact ⟨hok, hinv⟩
  rw [if_neg hs]
  by_cases hlvl : getNodeLevel w = 0
  · rw [if_pos hlvl]
    exact append_root_preserves rfl (by show getNodeLevel w ≤ 1; omega) hok hinv
  · rw [if_neg hlvl]
    cases hins : DepthVariant.insertAt (getNodeLevel w - 1) F
        (CPVNode.mk (parseLabel s).1 (parseLabel s).2 (getNodeLevel w) []) with
    | none => exact ⟨hok, hinv⟩
    | some F' =>
      exact @insert_preserves
        (CPVNode.mk (parseLabel s).1 (parseLabel s).2 (getNodeLevel w) [])
        (getNodeLevel w - 1) F F' rfl
        (by show getNodeLevel w = getNodeLevel w - 1 + 1; omega) hins hok hinv

theorem scrapeCPVTree_depth_levels_aux :
    ∀ (stream : List FlatNode) (F : List CPVNode),
    forestOkBy levelStepOrRootJump F = true ∧ ChainInv F →
    forestOkBy levelStepOrRootJump (stream.foldl DepthVariant.processNode F) = true ∧
    ChainInv (stream.foldl DepthVariant.processNode F) := by
  intro stream
  induction stream with
  | nil => intro F h; exact h
  | cons e stream ih =>
    intro F h
    exact ih _ (processNode_preserves F e h)

/-- C2 counterexample: the stream `[level 0, level 2]` makes the depth-stack
variant hang the level-2 node directly off the level-0 root — a parent/child
pair whose levels differ by two, refuting the claimed exact-step invariant
on this input. -/
theorem scrapeCPVTree_depth_claim_cex :
    DepthVariant.scrapeCPVTree [⟨some "A", some 0⟩, ⟨some "B", some 38⟩]
      = [.mk "" "A" 0 [.mk "" "B" 2 []]] ∧
    forestOkBy strictLevelStep
      (DepthVariant.scrapeCPVTree [⟨some "A", some 0⟩, ⟨some "B", some 38⟩])
      = false := by
  exact ⟨rfl, by decide⟩

/-- C2 as amended: in the depth-stack reconstruction, every node placed in a
parent's children sequence has level exactly one greater than its parent's,
except that a level-2 node can be placed under a level-0 root (the sole
deviation, exhibited by the counterexample). -/
theorem scrapeCPVTree_depth_levels (stream : List FlatNode) :
    forestOkBy levelStepOrRootJump (DepthVariant.scrapeCPVTree stream) = true := by
  refine (scrapeCPVTree_depth_levels_aux stream [] ⟨rfl, ?_, ?_⟩).1
  · intro x hx
    rw [chainNode_zero] at hx
    exact absurd hx (by simp)
  · intro k x hx
    rw [chainNode_nil] at hx
    exact absurd hx (by simp)

/-! ## C1 — orphan handling in both reconstruction variants -/

theorem pushChildAt_length :
    ∀ (l : List HNode) (i c : Nat), (pushChildAt l i c).length = l.length := by
  intro l
  induction l with
  | nil => intro i c; rfl
  | cons n rest ih =>
    intro i c
    cases i with
    | zero => rfl
    | succ i => simp [pushChildAt, ih]

theorem lookupKey_cons (key p : List Nat) (i : Nat) (m : List (List Nat × Nat)) :
    lookupKey key ((p, i) :: m)
      = if p = key then some i else lookupKey key m := by
  unfold lookupKey
  rw [List.find?_cons]
  by_cases hp : p = key
  · simp [hp]
  · simp [hp]

theorem pathStep_invalid (st : PState) (e : PathNode) (h : validEntry e = false) :
    PathVariant.processNode st e = st := by
  rcases e with ⟨lab, wid, path⟩
  rcases lab with _ | s
  · rfl
  rcases wid with _ | w
  · rfl
  unfold validEntry at h
  simp only [Bool.and_eq_true] at h
  unfold PathVariant.processNode
  dsimp only
  by_cases hs : s = ""
  · rw [if_pos hs]
  · exact absurd h (by simp [hs])

theorem pathStep_nodeMap (st : PState) (e : PathNode) :
    (PathVariant.processNode st e).nodeMap
      = if validEntry e then (e.path, st.nodes.length) :: st.nodeMap
        else st.nodeMap := by
  by_cases hv : validEntry e = true
  · rw [if_pos hv]
    rcases e with ⟨lab, wid, path⟩
    rcases lab with _ | s
    · exact absurd hv (by simp [validEntry])
    rcases wid with _ | w
    · exact absurd hv (by simp [validEntry])
    have hs : ¬(s = "") := by
      intro hs
      rw [validEntry, hs] at hv
      simp at hv
    unfold PathVariant.processNode
    dsimp only
    rw [if_neg hs]
    cases hlk : lookupKey path.dropLast ((path, st.nodes.length) :: st.nodeMap) <;> rfl
  · rw [if_neg hv, pathStep_invalid st e (by simpa using hv)]

theorem pathStep_length (st : PState) (e : PathNode) :
    (PathVariant.processNode st e).nodes.length
      = if validEntry e then st.nodes.length + 1 else st.nodes.length := by
  by_cases hv : validEntry e = true
  · rw [if_pos hv]
    rcases e with ⟨lab, wid, path⟩
    rcases lab with _ | s
    · exact absurd hv (by simp [validEntry])
    rcases wid with _ | w
    · exact absurd hv (by simp [validEntry])
    have hs : ¬(s = "") := by
      intro hs
      rw [validEntry, hs] at hv
      simp at hv
    unfold PathVariant.processNode
    dsimp only
    rw [if_neg hs]
    cases hlk : lookupKey path.dropLast ((path, st.nodes.length) :: st.nodeMap) with
    | none => simp
    | some pid => simp [pushChildAt_length]
  · rw [if_neg hv, pathStep_invalid st e (by simpa using hv)]

theorem pathStep_rootIds_mono (st : PState) (e : PathNode) (x : Nat)
    (hx : x ∈ st.rootIds) : x ∈ (PathVariant.processNode st e).rootIds := by
  by_cases hv : validEntry e = true
  · rcases e with ⟨lab, wid, path⟩
    rcases lab with _ | s
    · exact absurd hv (by simp [validEntry])
    rcases wid with _ | w
    · exact absurd hv (by simp [validEntry])
    have hs : ¬(s = "") := by
      intro hs
      rw [validEntry, hs] at hv
      simp at hv
    unfold PathVariant.processNode
    dsimp only
    rw [if_neg hs]
    cases hlk : lookupKey path.dropLast ((path, st.nodes.length) :: st.nodeMap) with
    | none => exact List.mem_append_left _ hx
    | some pid => exact hx
  · rw [pathStep_invalid st e (by simpa using hv)]
    exact hx

theorem pathStep_orphan (st : PState) (e : PathNode) (hv : validEntry e = true)
    (hlk : lookupKey e.path.dropLast ((e.path, st.nodes.length) :: st.nodeMap)
      = none) :
    (PathVariant.processNode st e).rootIds = st.rootIds ++ [st.nodes.length] := by
  rcases e with ⟨lab, wid, path⟩
  rcases lab with _ | s
  · exact absurd hv (by simp [validEntry])
  rcases wid with _ | w
  · exact absurd hv (by simp [validEntry])
  have hs : ¬(s = "") := by
    intro hs
    rw [validEntry, hs] at hv
    simp at hv
  unfold PathVariant.processNode
  dsimp only
  rw [if_neg hs, hlk]

theorem countValid_cons (e : PathNode) (P : List PathNode) :
    countValid (e :: P)
      = if validEntry e then countValid P + 1 else countValid P := by
  unfold countValid
  rw [List.filter_cons]
  by_cases hv : validEntry e = true
  · simp [hv, Nat.add_comm]
  · simp [hv]

theorem fold_length :
    ∀ (P : List PathNode) (st : PState),
    (P.foldl PathVariant.processNode st).nodes.length
      = st.nodes.length + countValid P := by
  intro P
  induction P with
  | nil => intro st; simp [countValid]
  | cons e P ih =>
    intro st
    rw [List.foldl_cons, ih, pathStep_length, countValid_cons]
    by_cases hv : validEntry e = true
    · simp [hv]; omega
    · simp [hv]

theorem fold_lookup_none :
    ∀ (P : List PathNode) (st : PState) (key : List Nat),
    lookupKey key st.nodeMap = none →
    (∀ o ∈ P.filter validEntry, ¬(o.path = key)) →
    lookupKey key (P.foldl PathVariant.processNode st).nodeMap = none := by
  intro P
  induction P with
  | nil => intro st key h _; exact h
  | cons e P ih =>
    intro st key h hall
    rw [List.foldl_cons]
    refine ih _ key ?_ ?_
    · rw [pathStep_nodeMap]
      by_cases hv : validEntry e = true
      · rw [if_pos hv, lookupKey_cons, if_neg, h]
        refine hall e ?_
        rw [List.filter_cons, if_pos hv]
        exact List.mem_cons_self e _
      · rw [if_neg hv]; exact h
    · intro o ho
      refine hall o ?_
      rw [List.filter_cons]
      by_cases hv : validEntry e = true
      · rw [if_pos hv]; exact List.mem_cons_of_mem e ho
      · rw [if_neg hv]; exact ho

theorem fold_rootIds_mono :
    ∀ (P : List PathNode) (st : PState) (x : Nat),
    x ∈ st.rootIds → x ∈ (P.foldl PathVariant.processNode st).rootIds := by
  intro P
  induction P with
  | nil => intro st x hx; exact hx
  | cons e P ih =>
    intro st x hx
    rw [List.foldl_cons]
    exact ih _ x (pathStep_rootIds_mono st e x hx)

/-- C1 counterexample: the depth-stack variant, fed a single node at level 2
(width 38 px), finds no ancestor (`cpvData` is empty), throws, and drops the
node — the returned forest is empty, so the node is absent from the result
precisely because its parent lookup failed, not promoted to root. -/
theorem scrapeCPVTree_orphan_claim_cex :
    DepthVariant.scrapeCPVTree [⟨some "B", some 38⟩] = [] := rfl

/-- C1 as amended: the positional-path variant does promote orphans — every
processed node whose parent key is carried by no processed entry up to and
including itself is appended to the root list of the result; the depth-stack
variant instead only roots nodes at level 0 or 1, and silently drops a node
whose ancestor descent fails (its `try/catch` leaves the forest unchanged,
as the counterexample shows). -/
theorem scrapeCPVTree_orphan_spec :
    (∀ (stream : List PathNode) (j : Nat) (e : PathNode),
      stream[j]? = some e → validEntry e = true →
      parentFindable stream j e = false →
      countValid (stream.take j) ∈ (PathVariant.scrapeCPVTree stream).rootIds) ∧
    (∀ (F : List CPVNode) (s : String) (w : Nat), ¬(s = "") →
      getNodeLevel w ≤ 1 →
      DepthVariant.processNode F ⟨some s, some w⟩
        = F ++ [CPVNode.mk (parseLabel s).1 (parseLabel s).2 (getNodeLevel w) []]) ∧
    (∀ (F : List CPVNode) (s : String) (w : Nat), ¬(s = "") →
      1 ≤ getNodeLevel w →
      DepthVariant.insertAt (getNodeLevel w - 1) F
        (CPVNode.mk (parseLabel s).1 (parseLabel s).2 (getNodeLevel w) []) = none →
      DepthVariant.processNode F ⟨some s, some w⟩ = F) := by
  refine ⟨?_, ?_, ?_⟩
  · intro stream j e hget hv hpf
    obtain ⟨hj, hel⟩ := List.getElem?_eq_some.mp hget
    have hdrop : stream.drop j = e :: stream.drop (j + 1) := by
      rw [List.drop_eq_getElem_cons hj, hel]
    have hsplit : stream = stream.take j ++ e :: stream.drop (j + 1) := by
      conv_lhs => rw [← List.take_append_drop j stream]
      rw [hdrop]
    have htake1 : stream.take (j + 1) = stream.take j ++ [e] := by
      rw [List.take_succ, hget]
      rfl
    have hall : ∀ o ∈ (stream.take (j + 1)).filter validEntry,
        ¬(o.path = e.path.dropLast) := by
      intro o ho
      have := List.any_eq_false.mp hpf o ho
      simpa using this
    have hself : ¬(e.path = e.path.dropLast) := by
      refine hall e ?_
      rw [htake1, List.filter_append]
      refine List.mem_append_right _ ?_
      rw [List.filter_cons, if_pos hv]
      exact List.mem_cons_self e _
    have hprev : ∀ o ∈ (stream.take j).filter validEntry,
        ¬(o.path = e.path.dropLast) := by
      intro o ho
      refine hall o ?_
      rw [htake1, List.filter_append]
      exact List.mem_append_left _ ho
    have hfold : PathVariant.scrapeCPVTree stream
        = (stream.drop (j + 1)).foldl PathVariant.processNode
            (PathVariant.processNode
              ((stream.take j).foldl PathVariant.processNode ⟨[], [], []⟩) e) := by
      unfold PathVariant.scrapeCPVTree
      conv_lhs => rw [hsplit]
      rw [List.foldl_append, List.foldl_cons]
    have hlen : ((stream.take j).foldl PathVariant.processNode
        ⟨[], [], []⟩).nodes.length = countValid (stream.take j) := by
      rw [fold_length]
      simp
    have hnomap : lookupKey e.path.dropLast
        ((stream.take j).foldl PathVariant.processNode ⟨[], [], []⟩).nodeMap
        = none :=
      fold_lookup_none (stream.take j) ⟨[], [], []⟩ e.path.dropLast rfl hprev
    have horphan := pathStep_orphan
      ((stream.take j).foldl PathVariant.processNode ⟨[], [], []⟩) e hv
      (by rw [lookupKey_cons, if_neg hself, hnomap])
    rw [hfold]
    refine fold_rootIds_mono _ _ _ ?_
    rw [horphan, hlen]
    exact List.mem_append_right _ (List.mem_singleton.mpr rfl)
  · intro F s w hs hlev
    unfold DepthVariant.processNode
    dsimp only
    rw [if_neg hs]
    have h0 : getNodeLevel w = 0 ∨ getNodeLevel w = 1 := by omega
    rcases h0 with h0 | h1
    · rw [if_pos h0]
    · rw [if_neg (by omega), h1]
      rfl
  · intro F s w hs hlev hfail
    unfold DepthVariant.processNode
    dsimp only
    rw [if_neg hs, if_neg (by omega), hfail]

/-- Witness for C1: a concrete two-entry stream whose second node's parent
path `[7]` is carried by no entry — it lands in the root list at heap index
1; plus concrete instances of the two depth-variant facts. -/
theorem scrapeCPVTree_orphan_spec_witness :
    1 ∈ (PathVariant.scrapeCPVTree
      [⟨some "A", some 0, [2]⟩, ⟨some "C", some 38, [7, 7]⟩]).rootIds ∧
    DepthVariant.processNode [] ⟨some "A", some 0⟩
      = [CPVNode.mk (parseLabel "A").1 (parseLabel "A").2 (getNodeLevel 0) []] ∧
    DepthVariant.processNode [] ⟨some "B", some 38⟩ = [] := by
  refine ⟨?_, ?_, ?_⟩
  · exact scrapeCPVTree_orphan_spec.1
      [⟨some "A", some 0, [2]⟩, ⟨some "C", some 38, [7, 7]⟩] 1
      ⟨some "C", some 38, [7, 7]⟩ rfl (by decide) (by decide)
  · exact scrapeCPVTree_orphan_spec.2.1 [] "A" 0 (by decide) (by decide)
  · exact scrapeCPVTree_orphan_spec.2.2 [] "B" 38 (by decide) (by decide) rfl
